import Mathlib

/-!
Shallow embedding of the coverage-decoding core of the fmidev weather
front end.  JavaScript numbers that can also be `null` or `NaN` are
modelled by `JsVal`; a JSON value array is a `List JsVal` and an
out-of-bounds access (JS `undefined`) is `Option.none` of `List.get?`.
The `ranges` object of a CoverageJSON response is an association list
from parameter key to value array.  Each decoding function is a direct
translation of one call site of the repository.
-/

inductive JsVal where
  | num : ℚ → JsVal
  | null : JsVal
  | nan : JsVal
deriving DecidableEq

/-- JS `ToNumber` coercion as used by `Math.min`, `+` and `/`:
`null` coerces to `0`; `NaN` (modelled as `none`) poisons arithmetic. -/
def toNum : JsVal → Option ℚ
  | JsVal.num q => some q
  | JsVal.null => some 0
  | JsVal.nan => none

/-- `Math.min(...l)` over a spread argument list, with `ToNumber`
coercion applied to each element; `none` is JS `NaN`.  The empty case
(JS `Infinity`) is mapped to `none` and is never reached under the
non-empty guards of the call sites. -/
def jsMin (l : List JsVal) : Option ℚ :=
  match l.mapM toNum with
  | none => none
  | some [] => none
  | some (q :: qs) => some (qs.foldl min q)

/-- `Math.max(...l)` with the same conventions as `jsMin`. -/
def jsMax (l : List JsVal) : Option ℚ :=
  match l.mapM toNum with
  | none => none
  | some [] => none
  | some (q :: qs) => some (qs.foldl max q)

/-- `l.reduce((a, b) => a + b, 0) / l.length` with JS coercion; the
empty list gives `0 / 0`, i.e. JS `NaN`, modelled as `none`. -/
def jsMean (l : List JsVal) : Option ℚ :=
  if l.isEmpty then none
  else
    match l.mapM toNum with
    | none => none
    | some qs => some (qs.sum / (l.length : ℚ))

/-- The `ranges` member of a response: parameter key to value array. -/
def Ranges := List (String × List JsVal)

/-- `ranges[key]?.values`: `none` is JS `undefined` (key absent). -/
def lookupRange (r : Ranges) (k : String) : Option (List JsVal) :=
  match r with
  | [] => none
  | (k', vs) :: rest => if k' = k then some vs else lookupRange rest k

/-- JS `a || b` on two optional value arrays: an array is always truthy
(even when empty), so only an absent (`undefined`) left operand falls
through to the right one. -/
def jsOr (a b : Option (List JsVal)) : Option (List JsVal) :=
  match a with
  | some v => some v
  | none => b

/-- From `fetchCurrentWeather` (src/services/weatherService.ts):
`data.ranges.Temperature?.values[0] ?? 0`.  `??` replaces `null` and
`undefined` (absent key or empty value array) by `0`; a numeric or
`NaN` value passes through. -/
def currentWeatherTemperature (r : Ranges) : JsVal :=
  match lookupRange r ("Temperature") with
  | none => JsVal.num 0
  | some vs =>
    match vs.get? 0 with
    | none => JsVal.num 0
    | some JsVal.null => JsVal.num 0
    | some v => v

/-- The numeric subset kept by `getAverageTemperature`'s filter
`temp !== null && temp !== undefined && !isNaN(temp)`
(src/services/temperatureApi.ts). -/
def numericOnly (l : List JsVal) : List ℚ :=
  l.filterMap (fun v => match v with | JsVal.num q => some q | _ => none)

/-- From `getAverageTemperature` (src/services/temperatureApi.ts):
value-array resolution `ranges?.Temperature?.values ||
ranges?.temperature?.values` — the exact requested casing first, then
the all-lowercase key. -/
def apiTemperatureValues (r : Ranges) : Option (List JsVal) :=
  jsOr (lookupRange r ("Temperature")) (lookupRange r ("temperature"))

/-- The averaging core of `getAverageTemperature` after key
resolution: the length guard, the valid-sample filter and the mean;
`none` models the thrown errors (empty array or no valid sample). -/
def averageOfValues (values : List JsVal) : Option ℚ :=
  if values.length = 0 then none
  else
    let valid := numericOnly values
    if valid.length = 0 then none
    else some (valid.sum / (valid.length : ℚ))

/-- `getAverageTemperature` (src/services/temperatureApi.ts): key
resolution followed by the averaging core; `none` models a throw. -/
def getAverageTemperature (r : Ranges) : Option ℚ :=
  match apiTemperatureValues r with
  | none => none
  | some values => averageOfValues values

/-- From `fetchForecast` (FiveDayForecast component):
`data.ranges.temperature?.values || data.ranges.Temperature?.values || []`
— the all-lowercase key is tried first there. -/
def forecastTemperatureValues (r : Ranges) : List JsVal :=
  (jsOr (lookupRange r ("temperature")) (lookupRange r ("Temperature"))).getD []

/-- From `CityWeather` (src/components/WeatherDisplay.tsx):
`data.ranges.Temperature?.values || []` — only the exact capitalised
key is tried, with no lowercase fallback. -/
def cityWeatherTemperatureValues (r : Ranges) : List JsVal :=
  (lookupRange r ("Temperature")).getD []

/-- Modelled from the spec: the lookup order the spec prescribes —
the exact requested casing first, then the all-lowercase variant,
before the parameter is considered absent. -/
def specCaseLookup (r : Ranges) (exactKey lowerKey : String) : Option (List JsVal) :=
  jsOr (lookupRange r exactKey) (lookupRange r lowerKey)

/-- From `extractWeatherData` (src/types/weather.ts): the hourly
temperature series
`timeValues.slice(0, hourlyCount).map((time, index) => ({time,
temperature: ranges.Temperature.values[index]})).filter((item) =>
item.temperature !== undefined)`; `hourlyCount` defaults to 12. -/
def extractHourlyTemperatures (times : List String) (temps : List JsVal)
    (hourlyCount : Nat) : List (String × JsVal) :=
  ((times.take hourlyCount).enum).filterMap (fun p =>
    match temps.get? p.1 with
    | none => none
    | some v => some (p.2, v))

/-- From `getMockWeatherData` (src/utils/mockData.ts): the epoch
milliseconds of the 12 generated hourly timestamps,
`now.getTime() + i * 60 * 60 * 1000` for `i = 0, …, 11` (each is then
rendered with `toISOString`, whose re-parse returns the same value). -/
def mockTimeMillis (now : ℕ) : List ℕ :=
  (List.range 12).map (fun i => now + i * 3600000)

/-- From `getMockWeatherData` (src/utils/mockData.ts): the `ranges`
literal, parameter key to value array. -/
def mockRangesValues : List (String × List ℚ) :=
  [(("Temperature"), [5.2, 4.8, 4.5, 4.2, 4.0, 4.1, 4.5, 5.0, 5.8, 6.5, 7.2, 7.8]),
   (("WindSpeedMS"), [3.5, 3.8, 4.1, 4.2, 4.0, 3.8, 3.5, 3.2, 3.0, 2.8, 2.5, 2.3]),
   (("WindDirection"), [225, 230, 235, 240, 245, 250, 255, 260, 265, 270, 275, 280]),
   (("Precipitation1h"), [0.1, 0.2, 0.3, 0.5, 0.4, 0.3, 0.2, 0.1, 0.0, 0.0, 0.0, 0.0]),
   (("PoP"), [25, 30, 35, 45, 40, 35, 30, 25, 20, 15, 10, 10])]

/-- A grid cell of the Christmas precipitation map
(src/components/ChristmasWeatherMaps.tsx). -/
structure GridPoint where
  lon : ℚ
  lat : ℚ
  value : Option ℚ
deriving DecidableEq

/-- From `fetchPrecipitationData`: the cell value
`value !== null && value > 0.01 ? value : null` applied to
`precipValues[dataIndex]`; an out-of-range access (`undefined`), a
`null`, a `NaN`, and any value not exceeding `0.01` all become
`null`. -/
def cellValue (vals : List JsVal) (idx : ℕ) : Option ℚ :=
  match vals.get? idx with
  | some (JsVal.num q) => if q > 0.01 then some q else none
  | _ => none

/-- From `fetchPrecipitationData`: the longitude
`xValues[xi] || BBOX.minLon + (xi / numX) * (BBOX.maxLon - BBOX.minLon)`
with the southern-Finland box `minLon = 22, maxLon = 26`; `||` means
both a missing and a zero axis value fall back to the interpolated
coordinate. -/
def christmasLonAt (xs : List ℚ) (xi numX : ℕ) : ℚ :=
  match xs.get? xi with
  | some q => if q = 0 then 22 + ((xi : ℚ) / (numX : ℚ)) * (26 - 22) else q
  | none => 22 + ((xi : ℚ) / (numX : ℚ)) * (26 - 22)

/-- The latitude counterpart, with `minLat = 59.5, maxLat = 61.5`. -/
def christmasLatAt (ys : List ℚ) (yi numY : ℕ) : ℚ :=
  match ys.get? yi with
  | some q => if q = 0 then 59.5 + ((yi : ℚ) / (numY : ℚ)) * (61.5 - 59.5) else q
  | none => 59.5 + ((yi : ℚ) / (numY : ℚ)) * (61.5 - 59.5)

/-- From `fetchPrecipitationData` (ChristmasWeatherMaps.tsx): one time
step of the grid decode — `yi` outer, `xi` inner, flat index
`timeIndex * (numX * numY) + yi * numX + xi`, with
`numX = xValues.length || GRID_RESOLUTION` (80), likewise `numY`. -/
def christmasGridStep (xs ys : List ℚ) (vals : List JsVal) (t : ℕ) : List GridPoint :=
  let numX := if xs.length = 0 then 80 else xs.length
  let numY := if ys.length = 0 then 80 else ys.length
  (List.range numY).flatMap (fun yi =>
    (List.range numX).map (fun xi =>
      { lon := christmasLonAt xs xi numX
        lat := christmasLatAt ys yi numY
        value := cellValue vals (t * (numX * numY) + yi * numX + xi) }))

/-- A point kept by `fetchWeatherData` (src/components/WeatherMap.tsx). -/
structure WMPoint where
  lat : ℚ
  lon : ℚ
  value : ℚ
deriving DecidableEq

/-- From `fetchWeatherData` (WeatherMap.tsx): the nested loop over
`yIdx` (outer) and `xIdx` (inner) with a sequential `valueIndex`
counter; a cell is pushed only when its value passes
`value !== null && value !== undefined && !isNaN(value)`.  The
`enum` index is the running `valueIndex`. -/
def weatherMapPoints (xs ys : List ℚ) (vals : List JsVal) : List WMPoint :=
  ((ys.flatMap (fun lat => xs.map (fun lon => (lon, lat)))).enum).filterMap
    (fun p =>
      match vals.get? p.1 with
      | some (JsVal.num v) => some { lat := p.2.2, lon := p.2.1, value := v }
      | _ => none)

/-- `new Date(t).toISOString().split('T')[0]` — for the normalised
UTC (`...Z`) ISO timestamps of the EDR time axis, parsing and
re-rendering is the identity, so the date key is the first ten
characters (`YYYY-MM-DD`), i.e. UTC calendar-day bucketing. -/
def dateKey (s : String) : String := (s.toList.take 10).asString

/-- From `fetchForecast` (FiveDayForecast): the
`symbolCounts.set(s, (symbolCounts.get(s) || 0) + 1)` update on a JS
`Map` — an existing key keeps its position, a new key is appended. -/
def bumpCount : List (JsVal × ℕ) → JsVal → List (JsVal × ℕ)
  | [], s => [(s, 1)]
  | (k, c) :: rest, s => if k = s then (k, c + 1) :: rest else (k, c) :: bumpCount rest s

/-- Folding `symbols.forEach(...)` over the count map. -/
def symbolCountsFrom : List JsVal → List (JsVal × ℕ) → List (JsVal × ℕ)
  | [], m => m
  | s :: rest, m => symbolCountsFrom rest (bumpCount m s)

/-- The frequency table of a day's symbols, in first-occurrence key
order (JS `Map` iteration order). -/
def symbolCounts (l : List JsVal) : List (JsVal × ℕ) := symbolCountsFrom l []

/-- `sort((a, b) => b[1] - a[1])[0]` on the entry list: a stable
descending sort followed by taking the head picks the first entry
whose count is maximal; `pickBest` computes that directly by keeping
the current best unless a strictly larger count appears. -/
def pickBest : List (JsVal × ℕ) → JsVal → ℕ → JsVal
  | [], bk, _ => bk
  | (k, c) :: rest, bk, bc => if c > bc then pickBest rest k c else pickBest rest bk bc

/-- `[0]?.[0]` on the sorted entry list: `none` when the day has no
symbol samples. -/
def pickMost : List (JsVal × ℕ) → Option JsVal
  | [] => none
  | (k, c) :: rest => some (pickBest rest k c)

/-- `... || 1`: an absent result, a modal value `0` (falsy) and `NaN`
all default to `1`. -/
def modalSymbol (l : List JsVal) : ℚ :=
  match pickMost (symbolCounts l) with
  | none => 1
  | some (JsVal.num q) => if q = 0 then 1 else q
  | some JsVal.null => 1
  | some JsVal.nan => 1

/-- A day bucket of `fetchForecast` (FiveDayForecast):
`{ temps: [], winds: [], symbols: [] }`. -/
structure Bucket where
  temps : List JsVal
  winds : List JsVal
  symbols : List JsVal
deriving DecidableEq

/-- The `value !== null && value !== undefined` gate applied before a
sample is pushed into a bucket: `null` and out-of-range (`undefined`)
values are dropped, everything else — including `NaN` — is kept. -/
def keepVal : Option JsVal → Option JsVal
  | some JsVal.null => none
  | none => none
  | some v => some v

/-- Push one (gated) sample triple into a bucket. -/
def Bucket.push (b : Bucket) (t w s : Option JsVal) : Bucket :=
  { temps := b.temps ++ (keepVal t).toList
    winds := b.winds ++ (keepVal w).toList
    symbols := b.symbols ++ (keepVal s).toList }

/-- `dayMap.set` semantics for one time step: an existing key is
updated in place, a new key is appended at the end (JS `Map`
insertion order). -/
def pushSample : List (String × Bucket) → String → Option JsVal → Option JsVal →
    Option JsVal → List (String × Bucket)
  | [], k, t, w, s => [(k, Bucket.push ⟨[], [], []⟩ t w s)]
  | (k', b) :: rest, k, t, w, s =>
    if k' = k then (k', b.push t w s) :: rest
    else (k', b) :: pushSample rest k t w s

/-- The `times.forEach((time, index) => ...)` loop of `fetchForecast`
building the day map, with the running index made explicit. -/
def buildFrom : List String → List JsVal → List JsVal → List JsVal → ℕ →
    List (String × Bucket) → List (String × Bucket)
  | [], _, _, _, _, acc => acc
  | time :: rest, temps, winds, symbols, i, acc =>
    buildFrom rest temps winds symbols (i + 1)
      (pushSample acc (dateKey time) (temps.get? i) (winds.get? i) (symbols.get? i))

/-- The complete day map of `fetchForecast`. -/
def buildDayMap (times : List String) (temps winds symbols : List JsVal) :
    List (String × Bucket) :=
  buildFrom times temps winds symbols 0 []

/-- Specification-side description of one bucket list: the gated
samples of all time steps whose date key is `k`, in source order. -/
def collectVals (times : List String) (vals : List JsVal) (i : ℕ) (k : String) :
    List JsVal :=
  match times with
  | [] => []
  | time :: rest =>
    (if dateKey time = k then (keepVal (vals.get? i)).toList else []) ++
      collectVals rest vals (i + 1) k

/-- Association-list lookup on a day map. -/
def findBucket : List (String × Bucket) → String → Option Bucket
  | [], _ => none
  | (k', b) :: rest, k => if k' = k then some b else findBucket rest k

/-- One rendered day of `fetchForecast` (FiveDayForecast).  `date`
keeps the bucket's date key (the source wraps it in `new Date`);
`Option ℚ` fields use `none` for JS `NaN`. -/
structure DayForecast where
  date : String
  minTemp : Option ℚ
  maxTemp : Option ℚ
  avgWindSpeed : Option ℚ
  weatherSymbol : ℚ
deriving DecidableEq

/-- The per-day aggregation step of `fetchForecast`: a day is emitted
only when its bucket holds at least one (non-null, defined)
temperature; `avgWindSpeed` is `winds.reduce(...) / winds.length`
(JS `NaN` when the day has no winds), and the symbol is the mode with
the `|| 1` default. -/
def aggregateDay (k : String) (b : Bucket) : Option DayForecast :=
  if b.temps.length > 0 then
    some { date := k
           minTemp := jsMin b.temps
           maxTemp := jsMax b.temps
           avgWindSpeed := jsMean b.winds
           weatherSymbol := modalSymbol b.symbols }
  else none

/-- From `fetchForecast` (FiveDayForecast):
`Array.from(dayMap.entries()).slice(0, 5).forEach(...)` — the first
five day buckets in insertion order are aggregated, and only those
with at least one temperature sample are kept. -/
def fetchForecastAgg (times : List String) (temps winds symbols : List JsVal) :
    List DayForecast :=
  ((buildDayMap times temps winds symbols).take 5).filterMap
    (fun p => aggregateDay p.1 p.2)

/-- `dailyData.get(dateKey)!.push(value)` semantics of
`fetch7DayForecast` (weatherService.ts) for a single-list map. -/
def pushListVal : List (String × List JsVal) → String → JsVal → List (String × List JsVal)
  | [], k, v => [(k, [v])]
  | (k', vs) :: rest, k, v =>
    if k' = k then (k', vs ++ [v]) :: rest else (k', vs) :: pushListVal rest k v

/-- The grouping loop of `fetch7DayForecast`: a temperature or cloud
sample is pushed when it is not `undefined` — a `null` passes this
test and enters the bucket. -/
def build7From : List String → List JsVal → List JsVal → ℕ →
    List (String × List JsVal) → List (String × List JsVal) →
    List (String × List JsVal) × List (String × List JsVal)
  | [], _, _, _, m1, m2 => (m1, m2)
  | time :: rest, temps, clouds, i, m1, m2 =>
    build7From rest temps clouds (i + 1)
      (match temps.get? i with
       | some v => pushListVal m1 (dateKey time) v
       | none => m1)
      (match clouds.get? i with
       | some v => pushListVal m2 (dateKey time) v
       | none => m2)

/-- Association-list lookup on a single-list day map. -/
def assocValues (m : List (String × List JsVal)) (k : String) : Option (List JsVal) :=
  match m with
  | [] => none
  | (k', vs) :: rest => if k' = k then some vs else assocValues rest k

/-- JS `Array.prototype.sort()` on the (distinct) date keys: default
lexicographic string order; modelled by insertion sort, which agrees
with any sort on a list of distinct keys. -/
def insertSorted (s : String) : List String → List String
  | [] => [s]
  | x :: xs => if s < x then s :: x :: xs else x :: insertSorted s xs

def sortKeys (l : List String) : List String := l.foldr insertSorted []

/-- `calculateWeatherSymbolFromCloudCover` (src/utils/weatherUtils.ts)
applied to the day's average cloud cover; a `NaN` average (`none`)
fails both `<` comparisons and yields `22`. -/
def calculateWeatherSymbolFromCloudCover (c : Option ℚ) : ℚ :=
  match c with
  | none => 22
  | some q => if q < 20 then 1 else if q < 50 then 2 else 22

/-- One day of `fetch7DayForecast` (weatherService.ts). -/
structure DailyForecast7 where
  date : String
  minT : Option ℚ
  maxT : Option ℚ
  avgT : Option ℚ
  weatherSymbol : ℚ
deriving DecidableEq

/-- From `fetch7DayForecast` (weatherService.ts): group by UTC date
key, sort the keys, `slice(0, 7)`, and aggregate each day whose
temperature list is non-empty; a day with no cloud samples uses the
default cloud cover 50. -/
def fetch7DayAgg (times : List String) (temps clouds : List JsVal) :
    List DailyForecast7 :=
  let maps := build7From times temps clouds 0 [] []
  ((sortKeys (maps.1.map Prod.fst)).take 7).filterMap (fun k =>
    let ts := (assocValues maps.1 k).getD []
    let cs := (assocValues maps.2 k).getD []
    if ts.length > 0 then
      some { date := k
             minT := jsMin ts
             maxT := jsMax ts
             avgT := jsMean ts
             weatherSymbol := calculateWeatherSymbolFromCloudCover
               (if cs.isEmpty then some 50 else jsMean cs) }
    else none)

/-- Lookup in a symbol-count map. -/
def countLookup : List (JsVal × ℕ) → JsVal → Option ℕ
  | [], _ => none
  | (k', c) :: rest, k => if k' = k then some c else countLookup rest k

/-- The keys not yet seen, in first-occurrence order — the new keys a
run of `bumpCount` updates appends. -/
def newKeys : List JsVal → List JsVal → List JsVal
  | [], _ => []
  | s :: rest, seen => if s ∈ seen then newKeys rest seen else s :: newKeys rest (s :: seen)

/-- C1 counterexample: with `ranges.Temperature.values[0] = null`,
`fetchCurrentWeather` extracts the temperature `0`, not `null` —
`?? 0` substitutes zero for the missing reading. -/
theorem C1_counterexample :
    currentWeatherTemperature [(("Temperature"), [JsVal.null])] = JsVal.num 0 ∧
    JsVal.num 0 ≠ JsVal.null := by
  exact ⟨by decide, by decide⟩

/-- C1 (amended): `getAverageTemperature` excludes `null` and `NaN`
samples from the mean (inserting such a sample anywhere never changes
the result), but `fetchCurrentWeather` yields `0`, never `null`, for
the temperature when `ranges.Temperature.values[0]` is `null` or the
parameter is absent. -/
theorem C1_amended :
    (∀ l1 l2 : List JsVal,
        averageOfValues (l1 ++ JsVal.null :: l2) = averageOfValues (l1 ++ l2) ∧
        averageOfValues (l1 ++ JsVal.nan :: l2) = averageOfValues (l1 ++ l2)) ∧
    (∀ r : Ranges, ∀ vs : List JsVal,
        lookupRange r ("Temperature") = some vs → vs.get? 0 = some JsVal.null →
        currentWeatherTemperature r = JsVal.num 0) ∧
    (∀ r : Ranges, lookupRange r ("Temperature") = none →
        currentWeatherTemperature r = JsVal.num 0) := by
  refine ⟨?_, ?_, ?_⟩
  · intro l1 l2
    have hnull : numericOnly (l1 ++ JsVal.null :: l2) = numericOnly (l1 ++ l2) := by
      simp [numericOnly, List.filterMap_append, List.filterMap_cons]
    have hnan : numericOnly (l1 ++ JsVal.nan :: l2) = numericOnly (l1 ++ l2) := by
      simp [numericOnly, List.filterMap_append, List.filterMap_cons]
    constructor
    · by_cases hlen : (l1 ++ l2).length = 0
      · rcases List.append_eq_nil.mp (List.length_eq_zero.mp hlen) with ⟨h1, h2⟩
        subst h1; subst h2
        decide
      · have hlen' : (l1 ++ JsVal.null :: l2).length ≠ 0 := by simp
        simp only [averageOfValues, hnull, if_neg hlen, if_neg hlen']
    · by_cases hlen : (l1 ++ l2).length = 0
      · rcases List.append_eq_nil.mp (List.length_eq_zero.mp hlen) with ⟨h1, h2⟩
        subst h1; subst h2
        decide
      · have hlen' : (l1 ++ JsVal.nan :: l2).length ≠ 0 := by simp
        simp only [averageOfValues, hnan, if_neg hlen, if_neg hlen']
  · intro r vs h1 h2
    have h2' : vs[0]? = some JsVal.null := by simpa using h2
    simp [currentWeatherTemperature, h1, h2']
  · intro r h1
    simp [currentWeatherTemperature, h1]

/-- C1 witness: the amended statement evaluated on a concrete range
whose first temperature value is `null`. -/
theorem C1_amended_witness :
    lookupRange [(("Temperature"), [JsVal.null])] ("Temperature") = some [JsVal.null] ∧
    ([JsVal.null] : List JsVal).get? 0 = some JsVal.null ∧
    currentWeatherTemperature [(("Temperature"), [JsVal.null])] = JsVal.num 0 :=
  ⟨by decide, by decide,
    C1_amended.2.1 [(("Temperature"), [JsVal.null])] [JsVal.null] (by decide) (by decide)⟩

/-- C5 counterexample: `CityWeather` resolves the temperature array
with the exact key only; a response carrying the parameter solely
under the lowercase key decodes to no values, while the spec's
exact-then-lowercase lookup finds them. -/
theorem C5_counterexample :
    cityWeatherTemperatureValues [(("temperature"), [JsVal.num 5])] = [] ∧
    specCaseLookup [(("temperature"), [JsVal.num 5])] ("Temperature") ("temperature") =
      some [JsVal.num 5] := by
  exact ⟨by decide, by decide⟩

/-- C5 (amended): `getAverageTemperature` tries the exact key
`Temperature` and then the lowercase key, `fetchForecast` tries the
lowercase key and then the capitalised one; in both, a response that
carries the parameter under only one of the two casings yields the
same value array, and the two call sites agree with each other.
`CityWeather`, however, tries only the exact capitalised key. -/
theorem C5_amended :
    (∀ r : Ranges, lookupRange r ("temperature") = none →
        apiTemperatureValues r = lookupRange r ("Temperature")) ∧
    (∀ r : Ranges, lookupRange r ("Temperature") = none →
        apiTemperatureValues r = lookupRange r ("temperature")) ∧
    (∀ r : Ranges, lookupRange r ("temperature") = none →
        forecastTemperatureValues r = (lookupRange r ("Temperature")).getD []) ∧
    (∀ r : Ranges, lookupRange r ("Temperature") = none →
        forecastTemperatureValues r = (lookupRange r ("temperature")).getD []) ∧
    (∀ r : Ranges,
        lookupRange r ("temperature") = none ∨ lookupRange r ("Temperature") = none →
        (apiTemperatureValues r).getD [] = forecastTemperatureValues r) ∧
    (∀ r : Ranges, ∀ vs : List JsVal,
        lookupRange r ("Temperature") = some vs → cityWeatherTemperatureValues r = vs) := by
  refine ⟨?_, ?_, ?_, ?_, ?_, ?_⟩
  · intro r h
    cases hT : lookupRange r ("Temperature") <;>
      simp [apiTemperatureValues, jsOr, h, hT]
  · intro r h
    simp [apiTemperatureValues, jsOr, h]
  · intro r h
    cases hT : lookupRange r ("Temperature") <;>
      simp [forecastTemperatureValues, jsOr, h, hT]
  · intro r h
    cases ht : lookupRange r ("temperature") <;>
      simp [forecastTemperatureValues, jsOr, h, ht]
  · intro r h
    rcases h with h | h
    · cases hT : lookupRange r ("Temperature") <;>
        simp [apiTemperatureValues, forecastTemperatureValues, jsOr, h, hT]
    · cases ht : lookupRange r ("temperature") <;>
        simp [apiTemperatureValues, forecastTemperatureValues, jsOr, h, ht]
  · intro r vs h
    simp [cityWeatherTemperatureValues, h]

/-- C5 witness: the amended statement evaluated on a response that
carries only the capitalised key. -/
theorem C5_amended_witness :
    lookupRange [(("Temperature"), [JsVal.num 7])] ("temperature") = none ∧
    apiTemperatureValues [(("Temperature"), [JsVal.num 7])] =
      lookupRange [(("Temperature"), [JsVal.num 7])] ("Temperature") :=
  ⟨by decide, C5_amended.1 _ (by decide)⟩

/-- A `filterMap` whose function always succeeds is a `map`. -/
theorem filterMap_eq_map_of_some {α β : Type} (f : α → Option β) (g : α → β)
    (l : List α) (h : ∀ x ∈ l, f x = some (g x)) : l.filterMap f = l.map g := by
  induction l with
  | nil => rfl
  | cons a l ih =>
    rw [List.filterMap_cons, h a (List.mem_cons_self a l), List.map_cons,
      ih (fun x hx => h x (List.mem_cons_of_mem a hx))]

/-- C2 counterexample: a valid 13-step point response (value array
aligned 1:1 with the time axis) decodes to only 12 entries — the
hourly series is truncated by `slice(0, hourlyCount)`. -/
theorem C2_counterexample :
    (((List.range 13).map (fun i => JsVal.num i)).length =
      ((List.range 13).map (fun i => toString i ++ ":00Z")).length) ∧
    (extractHourlyTemperatures
      ((List.range 13).map (fun i => toString i ++ ":00Z"))
      ((List.range 13).map (fun i => JsVal.num i)) 12).length = 12 := by
  exact ⟨by decide, by decide⟩

/-- C2 (amended): for a valid point response (`|values| = |t| = n`)
the hourly decode returns exactly `min hourlyCount n` entries (not
`n`: entries beyond `hourlyCount`, which defaults to 12, are dropped),
and for every `i` below that bound the `i`-th entry carries
`t.values[i]` and `values[i]`, in source order. -/
theorem C2_amended (times : List String) (temps : List JsVal) (hc : Nat)
    (hlen : temps.length = times.length) :
    (extractHourlyTemperatures times temps hc).length = min hc times.length ∧
    ∀ i, i < min hc times.length →
      ∃ t v, times.get? i = some t ∧ temps.get? i = some v ∧
        (extractHourlyTemperatures times temps hc).get? i = some (t, v) := by
  have hsome : ∀ p ∈ (times.take hc).enum,
      (fun p : Nat × String =>
        match temps.get? p.1 with
        | none => none
        | some v => some (p.2, v)) p =
      some (p.2, (temps.get? p.1).getD JsVal.null) := by
    intro p hp
    have h1 : p.1 < (times.take hc).length := List.fst_lt_of_mem_enum hp
    have h2 : p.1 < temps.length := by
      rw [hlen]
      refine lt_of_lt_of_le h1 ?_
      rw [List.length_take]
      omega
    rcases hv : temps.get? p.1 with _ | v
    · exact absurd (List.get?_eq_none.mp hv) (by omega)
    · have hv' : temps[p.1]? = some v := by simpa using hv
      simp [hv, hv']
  have hmap : extractHourlyTemperatures times temps hc =
      ((times.take hc).enum).map
        (fun p => (p.2, (temps.get? p.1).getD JsVal.null)) :=
    filterMap_eq_map_of_some _ _ _ hsome
  constructor
  · rw [hmap, List.length_map, List.enum_length, List.length_take]
  · intro i hi
    have hit : i < times.length := lt_of_lt_of_le hi (min_le_right _ _)
    have hiv : i < temps.length := by rw [hlen]; exact hit
    rcases ht : times.get? i with _ | t
    · exact absurd (List.get?_eq_none.mp ht) (by omega)
    · rcases hv : temps.get? i with _ | v
      · exact absurd (List.get?_eq_none.mp hv) (by omega)
      · refine ⟨t, v, rfl, rfl, ?_⟩
        have hv' : temps[i]? = some v := by simpa using hv
        rw [hmap, List.get?_map, List.get?_enum,
          List.get?_take (lt_of_lt_of_le hi (min_le_left _ _)), ht]
        simp [hv, hv']

/-- C2 witness: the amended statement evaluated on a valid two-step
response. -/
theorem C2_amended_witness :
    ([JsVal.num 1, JsVal.null] : List JsVal).length =
      ([("2025-01-01T00:00:00Z"), ("2025-01-01T01:00:00Z")] : List String).length ∧
    (extractHourlyTemperatures [("2025-01-01T00:00:00Z"), ("2025-01-01T01:00:00Z")]
      [JsVal.num 1, JsVal.null] 12).length =
      min 12 ([("2025-01-01T00:00:00Z"), ("2025-01-01T01:00:00Z")] : List String).length :=
  ⟨by decide,
    (C2_amended [("2025-01-01T00:00:00Z"), ("2025-01-01T01:00:00Z")]
      [JsVal.num 1, JsVal.null] 12 (by decide)).1⟩

/-- C9: the fallback synthesizer produces exactly 12 time steps with
strictly increasing timestamp milliseconds, and every parameter value
array has exactly the same length as the time axis, matching the
shape of a real 12-step point decode. -/
theorem C9_mock_shape (now : ℕ) :
    (mockTimeMillis now).length = 12 ∧
    List.Pairwise (· < ·) (mockTimeMillis now) ∧
    mockRangesValues.map (fun p => p.2.length) = [12, 12, 12, 12, 12] := by
  refine ⟨by simp [mockTimeMillis], ?_, by decide⟩
  have h : List.Pairwise (· < ·) (List.range 12) := List.pairwise_lt_range 12
  refine (List.pairwise_map).mpr (h.imp ?_)
  intro a b hab
  omega

theorem sum_map_const {α : Type} (l : List α) (k : ℕ) :
    (l.map (fun _ => k)).sum = l.length * k := by
  induction l with
  | nil => simp
  | cons a l ih => simp [ih, Nat.succ_mul, Nat.add_comm]

/-- Flat row-major indexing into a `flatMap` of constant-length rows. -/
theorem flatMap_get?_rowMajor {α β : Type} (l : List α) (f : α → List β) (k : ℕ)
    (hk : ∀ a ∈ l, (f a).length = k) (j xi : ℕ) (hxi : xi < k) :
    (l.flatMap f).get? (j * k + xi) = (l.get? j).bind (fun a => (f a).get? xi) := by
  induction l generalizing j with
  | nil => simp
  | cons a l ih =>
    rw [List.flatMap_cons]
    rcases j with _ | j
    · rw [Nat.zero_mul, Nat.zero_add,
        List.get?_append (by rw [hk a (List.mem_cons_self a l)]; exact hxi)]
      rfl
    · have hge : (f a).length ≤ (j + 1) * k + xi := by
        rw [hk a (List.mem_cons_self a l), Nat.succ_mul]
        omega
      rw [List.get?_append_right hge, hk a (List.mem_cons_self a l)]
      have harith : (j + 1) * k + xi - k = j * k + xi := by
        rw [Nat.succ_mul]
        omega
      rw [harith, ih (fun x hx => hk x (List.mem_cons_of_mem a hx)) j]
      rfl

/-- The point emitted at row-major position `yi * |x| + xi` of a
Christmas grid time step, for non-empty axes. -/
theorem christmasGridStep_get? (xs ys : List ℚ) (vals : List JsVal) (t yi xi : ℕ)
    (hx : xs ≠ []) (hy : ys ≠ []) (hyi : yi < ys.length) (hxi : xi < xs.length) :
    (christmasGridStep xs ys vals t).get? (yi * xs.length + xi) =
      some { lon := christmasLonAt xs xi xs.length
             lat := christmasLatAt ys yi ys.length
             value := cellValue vals (t * (xs.length * ys.length) + yi * xs.length + xi) } := by
  have hxl : xs.length ≠ 0 := by simpa [List.length_eq_zero] using hx
  have hyl : ys.length ≠ 0 := by simpa [List.length_eq_zero] using hy
  unfold christmasGridStep
  rw [if_neg hxl, if_neg hyl]
  rw [flatMap_get?_rowMajor _ _ xs.length (fun a _ => by simp) yi xi hxi,
    List.get?_range hyi, Option.some_bind, List.get?_map, List.get?_range hxi,
    Option.map_some']

/-- C6 counterexample: for a 1×1 area response whose single cell value
is `null`, the WeatherMap grid decode returns no points at all instead
of the claimed `|x| × |y| = 1` grid point — null cells are skipped,
not emitted with a null value. -/
theorem C6_counterexample :
    weatherMapPoints [24] [60] [JsVal.null] = [] ∧
    ([(60 : ℚ)].length * [(24 : ℚ)].length = 1) := by
  exact ⟨by decide, by decide⟩

/-- C6 (amended): for non-empty axes, the ChristmasWeatherMaps grid
decode emits exactly `|y| * |x|` points per time step in row-major
(y outer, x inner) order, and the point at position `(yi, xi)` carries
`x.values[xi]` and `y.values[yi]` whenever those axis values are
non-zero (a zero coordinate is falsy in JS and falls back to bounding
box interpolation).  The WeatherMap decode walks the same row-major
order but drops every cell whose value is null, undefined or NaN, so
it emits at most — not exactly — `|y| * |x|` points. -/
theorem C6_amended (xs ys : List ℚ) (vals : List JsVal) (t : ℕ)
    (hx : xs ≠ []) (hy : ys ≠ []) :
    (christmasGridStep xs ys vals t).length = ys.length * xs.length ∧
    (∀ yi xi, yi < ys.length → xi < xs.length →
      ∃ p : GridPoint,
        (christmasGridStep xs ys vals t).get? (yi * xs.length + xi) = some p ∧
        (∀ q, xs.get? xi = some q → q ≠ 0 → p.lon = q) ∧
        (∀ r, ys.get? yi = some r → r ≠ 0 → p.lat = r)) ∧
    (∀ (xs2 ys2 : List ℚ) (vals2 : List JsVal),
      (weatherMapPoints xs2 ys2 vals2).length ≤ ys2.length * xs2.length) := by
  have hxl : xs.length ≠ 0 := by simpa [List.length_eq_zero] using hx
  have hyl : ys.length ≠ 0 := by simpa [List.length_eq_zero] using hy
  refine ⟨?_, ?_, ?_⟩
  · unfold christmasGridStep
    rw [if_neg hxl, if_neg hyl, List.length_flatMap]
    have : List.map (List.length ∘ fun yi =>
        (List.range xs.length).map (fun xi =>
          ({ lon := christmasLonAt xs xi xs.length
             lat := christmasLatAt ys yi ys.length
             value := cellValue vals (t * (xs.length * ys.length) + yi * xs.length + xi) } :
            GridPoint))) (List.range ys.length) =
        List.replicate ys.length xs.length := by
      simp [Function.comp_def]
    rw [this, List.sum_replicate, smul_eq_mul]
  · intro yi xi hyi hxi
    refine ⟨_, christmasGridStep_get? xs ys vals t yi xi hx hy hyi hxi, ?_, ?_⟩
    · intro q hq hq0
      have hq' : xs[xi]? = some q := by simpa using hq
      simp [christmasLonAt, hq, hq', hq0]
    · intro r hr hr0
      have hr' : ys[yi]? = some r := by simpa using hr
      simp [christmasLatAt, hr, hr', hr0]
  · intro xs2 ys2 vals2
    calc (weatherMapPoints xs2 ys2 vals2).length
        ≤ ((ys2.flatMap (fun lat => xs2.map (fun lon => (lon, lat)))).enum).length :=
          List.length_filterMap_le _ _
      _ = ys2.length * xs2.length := by
          rw [List.enum_length, List.length_flatMap]
          have : List.map (List.length ∘ fun lat => xs2.map (fun lon => (lon, lat))) ys2 =
              List.replicate ys2.length xs2.length := by simp [Function.comp_def]
          rw [this, List.sum_replicate, smul_eq_mul]

/-- C6 witness: the amended statement evaluated on a concrete 2×1
grid. -/
theorem C6_amended_witness :
    (([(24 : ℚ), 25] : List ℚ) ≠ []) ∧ (([(60 : ℚ)] : List ℚ) ≠ []) ∧
    (christmasGridStep [24, 25] [60] [JsVal.num 1] 0).length =
      ([(60 : ℚ)] : List ℚ).length * ([(24 : ℚ), 25] : List ℚ).length :=
  ⟨by decide, by decide,
    (C6_amended [24, 25] [60] [JsVal.num 1] 0 (by decide) (by decide)).1⟩

/-- C7: the Christmas grid decode addresses the flattened value array
at `t * (|x| * |y|) + yi * |x| + xi`; the emitted cell's value is the
bounds-checked read of that index, and whenever the index falls at or
beyond the end of the value array the cell's value is `null` — the
decode is total and never throws on a truncated grid. -/
theorem C7_grid_index (xs ys : List ℚ) (vals : List JsVal) (t yi xi : ℕ)
    (hx : xs ≠ []) (hy : ys ≠ []) (hyi : yi < ys.length) (hxi : xi < xs.length) :
    ∃ p : GridPoint,
      (christmasGridStep xs ys vals t).get? (yi * xs.length + xi) = some p ∧
      p.value = cellValue vals (t * (xs.length * ys.length) + yi * xs.length + xi) ∧
      (vals.length ≤ t * (xs.length * ys.length) + yi * xs.length + xi →
        p.value = none) := by
  refine ⟨_, christmasGridStep_get? xs ys vals t yi xi hx hy hyi hxi, rfl, ?_⟩
  intro hoob
  simp only [cellValue, List.get?_eq_none.mpr hoob]

/-- C7 witness: a truncated grid — a 2×2 single-time-step area
response whose value array holds only 3 of the 4 cells; the last cell
decodes to a null value rather than an error. -/
theorem C7_grid_index_witness :
    (([(24 : ℚ), 25] : List ℚ) ≠ []) ∧ (([(60 : ℚ), 61] : List ℚ) ≠ []) ∧
    (1 < ([(60 : ℚ), 61] : List ℚ).length) ∧ (1 < ([(24 : ℚ), 25] : List ℚ).length) ∧
    (∃ p : GridPoint,
      (christmasGridStep [24, 25] [60, 61] [JsVal.num 1, JsVal.num 2, JsVal.num 3] 0).get?
        (1 * 2 + 1) = some p ∧
      p.value = cellValue [JsVal.num 1, JsVal.num 2, JsVal.num 3] (0 * (2 * 2) + 1 * 2 + 1) ∧
      (([JsVal.num 1, JsVal.num 2, JsVal.num 3] : List JsVal).length ≤
          0 * (2 * 2) + 1 * 2 + 1 →
        p.value = none)) :=
  ⟨by decide, by decide, by decide, by decide,
    C7_grid_index [24, 25] [60, 61] [JsVal.num 1, JsVal.num 2, JsVal.num 3] 0 1 1
      (by decide) (by decide) (by decide) (by decide)⟩

/-- Lookup after a `pushSample`: the pushed key's bucket gains the
gated samples; every other key is untouched. -/
theorem findBucket_pushSample (m : List (String × Bucket)) (k : String)
    (t w s : Option JsVal) (k' : String) :
    findBucket (pushSample m k t w s) k' =
      if k = k' then some (((findBucket m k).getD ⟨[], [], []⟩).push t w s)
      else findBucket m k' := by
  induction m with
  | nil =>
    by_cases h : k = k' <;> simp [pushSample, findBucket, h]
  | cons p rest ih =>
    rcases p with ⟨k0, b0⟩
    by_cases h0 : k0 = k
    · subst h0
      by_cases h : k0 = k'
      · subst h
        simp [pushSample, findBucket]
      · simp [pushSample, findBucket, h]
    · by_cases h : k = k'
      · subst h
        simp [pushSample, findBucket, h0, ih]
      · by_cases h1 : k0 = k'
        · subst h1
          simp [pushSample, findBucket, h0, ih, h]
        · simp [pushSample, findBucket, h0, h1, ih, h]

/-- Keys after a `pushSample`: unchanged when the key exists,
appended at the end otherwise. -/
theorem keys_pushSample (m : List (String × Bucket)) (k : String)
    (t w s : Option JsVal) :
    (pushSample m k t w s).map Prod.fst =
      if k ∈ m.map Prod.fst then m.map Prod.fst else m.map Prod.fst ++ [k] := by
  induction m with
  | nil => simp [pushSample]
  | cons p rest ih =>
    rcases p with ⟨k0, b0⟩
    by_cases h0 : k0 = k
    · subst h0
      simp [pushSample]
    · have hne : ¬ k = k0 := fun h => h0 h.symm
      by_cases hmem : k ∈ rest.map Prod.fst
      · simp [pushSample, h0, ih, hmem, hne]
      · simp [pushSample, h0, ih, hmem, hne]

/-- `pushSample` preserves distinctness of the keys. -/
theorem nodup_pushSample (m : List (String × Bucket)) (k : String)
    (t w s : Option JsVal) (h : (m.map Prod.fst).Nodup) :
    ((pushSample m k t w s).map Prod.fst).Nodup := by
  rw [keys_pushSample]
  by_cases hmem : k ∈ m.map Prod.fst
  · simpa [hmem] using h
  · rw [if_neg hmem, List.nodup_append]
    exact ⟨h, List.nodup_singleton k, by simpa using hmem⟩

/-- With distinct keys, membership determines the lookup. -/
theorem findBucket_of_mem (m : List (String × Bucket)) (k : String) (b : Bucket)
    (hnd : (m.map Prod.fst).Nodup) (hmem : (k, b) ∈ m) :
    findBucket m k = some b := by
  induction m with
  | nil => cases hmem
  | cons p rest ih =>
    rcases p with ⟨k0, b0⟩
    rcases List.mem_cons.mp hmem with heq | hmem'
    · rcases Prod.mk.injEq .. ▸ heq with ⟨h1, h2⟩
      simp [findBucket, h1.symm, h2]
    · have hk : k ∈ rest.map Prod.fst :=
        List.mem_map.mpr ⟨(k, b), hmem', rfl⟩
      have h0 : k0 ≠ k := by
        intro h
        subst h
        exact (List.nodup_cons.mp (by simpa using hnd)).1 hk
      simp [findBucket, h0]
      exact ih (List.nodup_cons.mp (by simpa using hnd)).2 hmem'

/-- The central day-map invariant: after folding the whole time axis,
the bucket found under key `k` consists of exactly the gated samples
of the time steps whose date key is `k`, appended to whatever the
accumulator already held under `k`. -/
theorem findBucket_buildFrom (temps winds symbols : List JsVal) :
    ∀ (times : List String) (i : ℕ) (acc : List (String × Bucket)) (k : String),
    findBucket (buildFrom times temps winds symbols i acc) k =
      match findBucket acc k with
      | some b => some ⟨b.temps ++ collectVals times temps i k,
                        b.winds ++ collectVals times winds i k,
                        b.symbols ++ collectVals times symbols i k⟩
      | none =>
        if k ∈ times.map dateKey then
          some ⟨collectVals times temps i k, collectVals times winds i k,
                collectVals times symbols i k⟩
        else none := by
  intro times
  induction times with
  | nil =>
    intro i acc k
    cases hacc : findBucket acc k <;> simp [buildFrom, collectVals, hacc]
  | cons time rest ih =>
    intro i acc k
    rw [buildFrom, ih (i + 1) _ k, findBucket_pushSample]
    by_cases hk : dateKey time = k
    · subst hk
      cases hacc : findBucket acc (dateKey time) with
      | none => simp [hacc, collectVals, Bucket.push]
      | some b => simp [hacc, collectVals, Bucket.push, List.append_assoc]
    · have hk' : ¬ (k = dateKey time) := fun h => hk h.symm
      cases hacc : findBucket acc k with
      | none =>
        simp only [if_neg hk, hacc]
        simp [collectVals, hk, hk']
      | some b =>
        simp only [if_neg hk, hacc]
        simp [collectVals, hk]

/-- Keys of the built day map are distinct. -/
theorem nodup_buildFrom (temps winds symbols : List JsVal) :
    ∀ (times : List String) (i : ℕ) (acc : List (String × Bucket)),
    (acc.map Prod.fst).Nodup →
    ((buildFrom times temps winds symbols i acc).map Prod.fst).Nodup := by
  intro times
  induction times with
  | nil => intro i acc h; simpa [buildFrom] using h
  | cons time rest ih =>
    intro i acc h
    exact ih (i + 1) _ (nodup_pushSample _ _ _ _ _ h)

/-- Every entry of the built day map is exactly the collected gated
samples of its date key. -/
theorem mem_buildDayMap_eq (times : List String) (temps winds symbols : List JsVal)
    (k : String) (b : Bucket)
    (hmem : (k, b) ∈ buildDayMap times temps winds symbols) :
    b = ⟨collectVals times temps 0 k, collectVals times winds 0 k,
         collectVals times symbols 0 k⟩ := by
  have hnd : ((buildDayMap times temps winds symbols).map Prod.fst).Nodup :=
    nodup_buildFrom temps winds symbols times 0 [] (by simp)
  have hfind := findBucket_of_mem _ _ _ hnd hmem
  rw [buildDayMap, findBucket_buildFrom] at hfind
  simp only [findBucket] at hfind
  by_cases hin : k ∈ times.map dateKey
  · rw [if_pos hin] at hfind
    exact (Option.some.injEq .. ▸ hfind).symm
  · rw [if_neg hin] at hfind
    cases hfind

/-- C3 counterexample: six consecutive days where day 1 has only a
`null` temperature.  `fetchForecast` slices to the first five day
buckets *before* discarding temperature-less days, so it outputs only
four days and `2025-01-06` — a day that has data — never appears,
although a presentation-layer slice of a full aggregation would have
shown five days including it. -/
theorem C3_counterexample :
    ((fetchForecastAgg
        [("2025-01-01T00:00:00Z"), ("2025-01-02T00:00:00Z"), ("2025-01-03T00:00:00Z"),
         ("2025-01-04T00:00:00Z"), ("2025-01-05T00:00:00Z"), ("2025-01-06T00:00:00Z")]
        [JsVal.null, JsVal.num 1, JsVal.num 1, JsVal.num 1, JsVal.num 1, JsVal.num 1]
        (List.replicate 6 (JsVal.num 2))
        (List.replicate 6 (JsVal.num 1))).map (fun d => d.date) =
      [("2025-01-02"), ("2025-01-03"), ("2025-01-04"), ("2025-01-05")]) ∧
    collectVals
      [("2025-01-01T00:00:00Z"), ("2025-01-02T00:00:00Z"), ("2025-01-03T00:00:00Z"),
       ("2025-01-04T00:00:00Z"), ("2025-01-05T00:00:00Z"), ("2025-01-06T00:00:00Z")]
      [JsVal.null, JsVal.num 1, JsVal.num 1, JsVal.num 1, JsVal.num 1, JsVal.num 1]
      0 ("2025-01-06") = [JsVal.num 1] := by
  exact ⟨by decide, by decide⟩

/-- C3 (amended): the truncation to the first N days is applied
*inside* the aggregation, to the day-bucket list before the
has-data check — not as a presentation slice on the aggregator's
output.  `fetchForecast` aggregates only the first 5 buckets in
insertion order (so its output has at most 5 days, every output day
key is among the first 5 bucket keys, and each of those buckets with
a temperature sample does appear), and `fetch7DayForecast` likewise
takes the first 7 sorted keys before aggregating. -/
theorem C3_amended (times : List String) (temps winds symbols : List JsVal) :
    (fetchForecastAgg times temps winds symbols).length ≤ 5 ∧
    (∀ d ∈ fetchForecastAgg times temps winds symbols,
      d.date ∈ ((buildDayMap times temps winds symbols).map Prod.fst).take 5) ∧
    (∀ k b, (k, b) ∈ (buildDayMap times temps winds symbols).take 5 →
      b.temps ≠ [] →
      ∃ d, d ∈ fetchForecastAgg times temps winds symbols ∧ d.date = k) ∧
    (∀ (times2 : List String) (temps2 clouds2 : List JsVal),
      (fetch7DayAgg times2 temps2 clouds2).length ≤ 7) := by
  refine ⟨?_, ?_, ?_, ?_⟩
  · refine le_trans (List.length_filterMap_le _ _) ?_
    rw [List.length_take]
    exact min_le_left _ _
  · intro d hd
    rcases List.mem_filterMap.mp hd with ⟨⟨k, b⟩, htake, heq⟩
    by_cases hb : b.temps.length > 0
    · rw [aggregateDay, if_pos hb] at heq
      have hdate : d.date = k := by
        cases heq
        rfl
      rw [hdate, ← List.map_take]
      exact List.mem_map.mpr ⟨(k, b), htake, rfl⟩
    · rw [aggregateDay, if_neg hb] at heq
      cases heq
  · intro k b htake hne
    have hb : b.temps.length > 0 := List.length_pos.mpr hne
    exact ⟨_, List.mem_filterMap.mpr ⟨(k, b), htake, by rw [aggregateDay, if_pos hb]⟩, rfl⟩
  · intro times2 temps2 clouds2
    refine le_trans (List.length_filterMap_le _ _) ?_
    rw [List.length_take]
    exact min_le_left _ _

/-- C3 witness: the amended statement evaluated on a concrete
two-day input. -/
theorem C3_amended_witness :
    (("2025-01-01"),
      (⟨[JsVal.num 3], [JsVal.num 2], [JsVal.num 1]⟩ : Bucket)) ∈
      (buildDayMap [("2025-01-01T00:00:00Z"), ("2025-01-02T00:00:00Z")]
        [JsVal.num 3, JsVal.num 4] [JsVal.num 2, JsVal.num 2]
        [JsVal.num 1, JsVal.num 1]).take 5 ∧
    ([JsVal.num 3] : List JsVal) ≠ [] ∧
    (∃ d, d ∈ fetchForecastAgg [("2025-01-01T00:00:00Z"), ("2025-01-02T00:00:00Z")]
        [JsVal.num 3, JsVal.num 4] [JsVal.num 2, JsVal.num 2]
        [JsVal.num 1, JsVal.num 1] ∧ d.date = ("2025-01-01")) :=
  ⟨by decide, by decide,
    (C3_amended [("2025-01-01T00:00:00Z"), ("2025-01-02T00:00:00Z")]
      [JsVal.num 3, JsVal.num 4] [JsVal.num 2, JsVal.num 2]
      [JsVal.num 1, JsVal.num 1]).2.2.1 ("2025-01-01")
      ⟨[JsVal.num 3], [JsVal.num 2], [JsVal.num 1]⟩ (by decide) (by decide)⟩

/-- C4 counterexample: a day whose only temperature sample is `null`.
`fetch7DayForecast` gates samples with `!== undefined` only, so the
`null` enters the bucket, the all-null day is *not* omitted, and its
min/max/mean are computed as `0` (JS coerces `null` to `0` in
`Math.min`/`Math.max`/`+`). -/
theorem C4_counterexample :
    (fetch7DayAgg [("2025-01-01T00:00:00Z")] [JsVal.null] [JsVal.null]).map
        (fun d => (d.date, d.minT, d.maxT)) =
      [(("2025-01-01"), some 0, some 0)] := by
  decide

/-- C4 (amended): the claimed null handling holds for `fetchForecast`
(FiveDayForecast): a `null` sample never enters a day bucket, every
emitted day's min/max range over exactly the non-null (defined)
samples of that calendar day, and a day all of whose temperature
samples are `null` never appears.  `fetch7DayForecast`, by contrast,
gates only on `undefined`, so there a `null` sample enters the
aggregates as `0` and an all-null day is still emitted. -/
theorem C4_amended (times : List String) (temps winds symbols : List JsVal) :
    (∀ d ∈ fetchForecastAgg times temps winds symbols,
      collectVals times temps 0 d.date ≠ [] ∧
      d.minTemp = jsMin (collectVals times temps 0 d.date) ∧
      d.maxTemp = jsMax (collectVals times temps 0 d.date)) ∧
    (∀ k, collectVals times temps 0 k = [] →
      ∀ d ∈ fetchForecastAgg times temps winds symbols, d.date ≠ k) := by
  have hmain : ∀ d ∈ fetchForecastAgg times temps winds symbols,
      collectVals times temps 0 d.date ≠ [] ∧
      d.minTemp = jsMin (collectVals times temps 0 d.date) ∧
      d.maxTemp = jsMax (collectVals times temps 0 d.date) := by
    intro d hd
    rcases List.mem_filterMap.mp hd with ⟨⟨k, b⟩, htake, heq⟩
    have hbeq := mem_buildDayMap_eq times temps winds symbols k b
      (List.mem_of_mem_take htake)
    by_cases hb : b.temps.length > 0
    · rw [aggregateDay, if_pos hb] at heq
      cases heq
      have htemps : b.temps = collectVals times temps 0 k := by rw [hbeq]
      constructor
      · rw [← htemps]
        exact fun hnil => by simp [hnil] at hb
      · rw [← htemps]
        exact ⟨rfl, rfl⟩
    · rw [aggregateDay, if_neg hb] at heq
      cases heq
  exact ⟨hmain, fun k hk d hd heq => ((hmain d hd).1 (heq ▸ hk)).elim⟩

/-- C4 witness: the amended statement evaluated on a day containing
one `null` and one numeric sample — the aggregates ignore the
`null`. -/
theorem C4_amended_witness :
    (∃ d, d ∈ fetchForecastAgg
        [("2025-01-01T00:00:00Z"), ("2025-01-01T06:00:00Z")]
        [JsVal.null, JsVal.num 4] [JsVal.num 2, JsVal.num 2]
        [JsVal.num 1, JsVal.num 1] ∧
      collectVals [("2025-01-01T00:00:00Z"), ("2025-01-01T06:00:00Z")]
        [JsVal.null, JsVal.num 4] 0 d.date ≠ [] ∧
      d.minTemp = jsMin (collectVals [("2025-01-01T00:00:00Z"), ("2025-01-01T06:00:00Z")]
        [JsVal.null, JsVal.num 4] 0 d.date)) := by
  have htake : ((("2025-01-01")),
      (⟨[JsVal.num 4], [JsVal.num 2, JsVal.num 2], [JsVal.num 1, JsVal.num 1]⟩ : Bucket)) ∈
      (buildDayMap [("2025-01-01T00:00:00Z"), ("2025-01-01T06:00:00Z")]
        [JsVal.null, JsVal.num 4] [JsVal.num 2, JsVal.num 2]
        [JsVal.num 1, JsVal.num 1]).take 5 := by decide
  have hd : ((⟨("2025-01-01"), jsMin [JsVal.num 4], jsMax [JsVal.num 4],
      jsMean [JsVal.num 2, JsVal.num 2],
      modalSymbol [JsVal.num 1, JsVal.num 1]⟩ : DayForecast)) ∈
      fetchForecastAgg [("2025-01-01T00:00:00Z"), ("2025-01-01T06:00:00Z")]
        [JsVal.null, JsVal.num 4] [JsVal.num 2, JsVal.num 2]
        [JsVal.num 1, JsVal.num 1] :=
    List.mem_filterMap.mpr ⟨_, htake, rfl⟩
  have h := (C4_amended [("2025-01-01T00:00:00Z"), ("2025-01-01T06:00:00Z")]
    [JsVal.null, JsVal.num 4] [JsVal.num 2, JsVal.num 2]
    [JsVal.num 1, JsVal.num 1]).1 _ hd
  exact ⟨_, hd, h.1, h.2.1⟩

/-- C10: every emitted forecast day carries a weather symbol computed
by `modalSymbol` from its bucket (which always holds a temperature
sample); a bucket with no symbol samples gets the default `1`, and a
bucket whose modal symbol value is `0` (falsy under `|| 1`) also gets
`1`. -/
theorem C10_default_symbol :
    modalSymbol [] = 1 ∧
    (∀ l : List JsVal, pickMost (symbolCounts l) = some (JsVal.num 0) →
      modalSymbol l = 1) ∧
    (∀ (times : List String) (temps winds symbols : List JsVal),
      ∀ d ∈ fetchForecastAgg times temps winds symbols,
      ∃ k b, (k, b) ∈ (buildDayMap times temps winds symbols).take 5 ∧
        b.temps ≠ [] ∧ d.weatherSymbol = modalSymbol b.symbols) := by
  refine ⟨by decide, ?_, ?_⟩
  · intro l h
    rw [modalSymbol, h]
    simp
  · intro times temps winds symbols d hd
    rcases List.mem_filterMap.mp hd with ⟨⟨k, b⟩, htake, heq⟩
    by_cases hb : b.temps.length > 0
    · rw [aggregateDay, if_pos hb] at heq
      cases heq
      exact ⟨k, b, htake, fun hnil => by simp [hnil] at hb, rfl⟩
    · rw [aggregateDay, if_neg hb] at heq
      cases heq

/-- C10 witness: a day with a temperature but no symbol samples gets
symbol `1`. -/
theorem C10_default_symbol_witness :
    (∃ d, d ∈ fetchForecastAgg [("2025-01-01T00:00:00Z")] [JsVal.num 4]
        [JsVal.num 2] [] ∧
      (∃ k b, (k, b) ∈ (buildDayMap [("2025-01-01T00:00:00Z")] [JsVal.num 4]
          [JsVal.num 2] []).take 5 ∧
        b.temps ≠ [] ∧ d.weatherSymbol = modalSymbol b.symbols)) := by
  have htake : ((("2025-01-01")),
      (⟨[JsVal.num 4], [JsVal.num 2], []⟩ : Bucket)) ∈
      (buildDayMap [("2025-01-01T00:00:00Z")] [JsVal.num 4]
        [JsVal.num 2] []).take 5 := by decide
  have hd : ((⟨("2025-01-01"), jsMin [JsVal.num 4], jsMax [JsVal.num 4],
      jsMean [JsVal.num 2], modalSymbol []⟩ : DayForecast)) ∈
      fetchForecastAgg [("2025-01-01T00:00:00Z")] [JsVal.num 4] [JsVal.num 2] [] :=
    List.mem_filterMap.mpr ⟨_, htake, rfl⟩
  exact ⟨_, hd, C10_default_symbol.2.2 _ _ _ _ _ hd⟩

theorem countLookup_bumpCount (m : List (JsVal × ℕ)) (s k : JsVal) :
    countLookup (bumpCount m s) k =
      if s = k then some ((countLookup m s).getD 0 + 1) else countLookup m k := by
  induction m with
  | nil => by_cases h : s = k <;> simp [bumpCount, countLookup, h]
  | cons p rest ih =>
    rcases p with ⟨k0, c0⟩
    by_cases h0 : k0 = s
    · subst h0
      by_cases h : k0 = k
      · subst h
        simp [bumpCount, countLookup]
      · simp [bumpCount, countLookup, h]
    · by_cases h : s = k
      · subst h
        have h0' : ¬ k0 = s := h0
        simp [bumpCount, countLookup, h0', ih]
      · by_cases h1 : k0 = k
        · subst h1
          simp [bumpCount, countLookup, h0, ih, h]
        · simp [bumpCount, countLookup, h0, h1, ih, h]

theorem keys_bumpCount (m : List (JsVal × ℕ)) (s : JsVal) :
    (bumpCount m s).map Prod.fst =
      if s ∈ m.map Prod.fst then m.map Prod.fst else m.map Prod.fst ++ [s] := by
  induction m with
  | nil => simp [bumpCount]
  | cons p rest ih =>
    rcases p with ⟨k0, c0⟩
    by_cases h0 : k0 = s
    · subst h0
      simp [bumpCount]
    · have h0' : ¬ s = k0 := fun h => h0 h.symm
      by_cases hmem : s ∈ rest.map Prod.fst
      · simp [bumpCount, h0, ih, hmem, h0']
      · simp [bumpCount, h0, ih, hmem, h0']

theorem newKeys_congr (l : List JsVal) : ∀ seen seen' : List JsVal,
    (∀ x, x ∈ seen ↔ x ∈ seen') → newKeys l seen = newKeys l seen' := by
  induction l with
  | nil => intro seen seen' _; rfl
  | cons s rest ih =>
    intro seen seen' h
    by_cases hs : s ∈ seen
    · rw [newKeys, newKeys, if_pos hs, if_pos ((h s).mp hs)]
      exact ih seen seen' h
    · rw [newKeys, newKeys, if_neg hs, if_neg (fun hx => hs ((h s).mpr hx))]
      rw [ih (s :: seen) (s :: seen') (by intro x; simp [h x])]

theorem keys_symbolCountsFrom (l : List JsVal) : ∀ m : List (JsVal × ℕ),
    (symbolCountsFrom l m).map Prod.fst = m.map Prod.fst ++ newKeys l (m.map Prod.fst) := by
  induction l with
  | nil => intro m; simp [symbolCountsFrom, newKeys]
  | cons s rest ih =>
    intro m
    rw [symbolCountsFrom, ih, keys_bumpCount]
    by_cases hs : s ∈ m.map Prod.fst
    · rw [if_pos hs, newKeys, if_pos hs]
    · rw [if_neg hs, newKeys, if_neg hs,
        newKeys_congr rest (m.map Prod.fst ++ [s]) (s :: m.map Prod.fst)
          (by intro x; simp [or_comm]),
        List.append_assoc]
      rfl

theorem newKeys_sound (l : List JsVal) : ∀ (seen : List JsVal) (x : JsVal),
    x ∈ newKeys l seen → x ∈ l ∧ x ∉ seen := by
  induction l with
  | nil => intro seen x hx; cases hx
  | cons s rest ih =>
    intro seen x hx
    by_cases hs : s ∈ seen
    · rw [newKeys, if_pos hs] at hx
      rcases ih seen x hx with ⟨h1, h2⟩
      exact ⟨List.mem_cons_of_mem s h1, h2⟩
    · rw [newKeys, if_neg hs] at hx
      rcases List.mem_cons.mp hx with rfl | hx'
      · exact ⟨List.mem_cons_self x rest, hs⟩
      · rcases ih (s :: seen) x hx' with ⟨h1, h2⟩
        exact ⟨List.mem_cons_of_mem s h1,
          fun hmem => h2 (List.mem_cons_of_mem s hmem)⟩

/-- New keys appear in strictly increasing order of first occurrence
in the scanned list. -/
theorem newKeys_pairwise (l : List JsVal) : ∀ seen : List JsVal,
    List.Pairwise (fun a b => l.indexOf a < l.indexOf b) (newKeys l seen) := by
  induction l with
  | nil => intro seen; simp [newKeys]
  | cons s rest ih =>
    intro seen
    have hlift : ∀ (seen' : List JsVal), s ∈ seen' →
        List.Pairwise (fun a b => (s :: rest).indexOf a < (s :: rest).indexOf b)
          (newKeys rest seen') := by
      intro seen' hs'
      refine List.Pairwise.imp_of_mem ?_ (ih seen')
      intro a b ha hb hab
      have hna : a ≠ s := fun h => (newKeys_sound rest seen' a ha).2 (h ▸ hs')
      have hnb : b ≠ s := fun h => (newKeys_sound rest seen' b hb).2 (h ▸ hs')
      rw [List.indexOf_cons_ne rest (fun h => hna h.symm),
        List.indexOf_cons_ne rest (fun h => hnb h.symm)]
      omega
    by_cases hs : s ∈ seen
    · rw [newKeys, if_pos hs]
      exact hlift seen hs
    · rw [newKeys, if_neg hs]
      refine List.pairwise_cons.mpr ⟨?_, hlift (s :: seen) (List.mem_cons_self s seen)⟩
      intro b hb
      have hnb : b ≠ s := fun h =>
        (newKeys_sound rest (s :: seen) b hb).2 (h ▸ List.mem_cons_self s seen)
      rw [List.indexOf_cons_self, List.indexOf_cons_ne rest (fun h => hnb h.symm)]
      omega

theorem countLookup_mem (m : List (JsVal × ℕ)) (k : JsVal) (c : ℕ)
    (h : countLookup m k = some c) : (k, c) ∈ m := by
  induction m with
  | nil => cases h
  | cons p rest ih =>
    rcases p with ⟨k0, c0⟩
    by_cases h0 : k0 = k
    · subst h0
      rw [countLookup, if_pos rfl] at h
      cases h
      exact List.mem_cons_self _ _
    · rw [countLookup, if_neg h0] at h
      exact List.mem_cons_of_mem _ (ih h)

theorem mem_countLookup (m : List (JsVal × ℕ)) (k : JsVal) (c : ℕ)
    (hnd : (m.map Prod.fst).Nodup) (hmem : (k, c) ∈ m) :
    countLookup m k = some c := by
  induction m with
  | nil => cases hmem
  | cons p rest ih =>
    rcases p with ⟨k0, c0⟩
    rcases List.mem_cons.mp hmem with heq | hmem'
    · rcases Prod.mk.injEq .. ▸ heq with ⟨h1, h2⟩
      simp [countLookup, h1.symm, h2]
    · have hk : k ∈ rest.map Prod.fst := List.mem_map.mpr ⟨(k, c), hmem', rfl⟩
      have h0 : k0 ≠ k := by
        intro h
        subst h
        exact (List.nodup_cons.mp (by simpa using hnd)).1 hk
      rw [countLookup, if_neg h0]
      exact ih (List.nodup_cons.mp (by simpa using hnd)).2 hmem'

/-- The running total of the symbol frequency table. -/
theorem countLookup_symbolCountsFrom (l : List JsVal) : ∀ (m : List (JsVal × ℕ)) (k : JsVal),
    countLookup (symbolCountsFrom l m) k =
      match countLookup m k with
      | some c => some (c + l.count k)
      | none => if k ∈ l then some (l.count k) else none := by
  induction l with
  | nil =>
    intro m k
    cases h : countLookup m k <;> simp [symbolCountsFrom, h]
  | cons s rest ih =>
    intro m k
    rw [symbolCountsFrom, ih, countLookup_bumpCount]
    by_cases h : s = k
    · subst h
      rw [if_pos rfl, List.count_cons_self]
      cases hm : countLookup m s with
      | none =>
        simp only [Option.getD_none]
        have : s ∈ s :: rest := List.mem_cons_self s rest
        simp [this]
        omega
      | some c =>
        simp only [Option.getD_some]
        exact congrArg some (by omega)
    · rw [if_neg h]
      have hk : k ≠ s := fun hh => h hh.symm
      rw [List.count_cons_of_ne hk]
      cases hm : countLookup m k with
      | none =>
        have : (k ∈ s :: rest) = (k ∈ rest) := by simp [List.mem_cons, hk]
        simp [this]
      | some c => simp

/-- `pickBest` — the stable-descending-sort head — splits its input:
everything before the chosen entry has a strictly smaller count, and
everything after it has a count no larger. -/
theorem pickBest_split : ∀ (rest : List (JsVal × ℕ)) (bk : JsVal) (bc : ℕ),
    ∃ c l1 l2, ((bk, bc) :: rest) = l1 ++ (pickBest rest bk bc, c) :: l2 ∧
      (∀ p ∈ l1, p.2 < c) ∧ (∀ p ∈ l2, p.2 ≤ c) := by
  intro rest
  induction rest with
  | nil =>
    intro bk bc
    exact ⟨bc, [], [], rfl, by simp, by simp⟩
  | cons p rest ih =>
    intro bk bc
    rcases p with ⟨k0, c0⟩
    by_cases h : c0 > bc
    · rcases ih k0 c0 with ⟨c, l1, l2, heq, h1, h2⟩
      have hr : pickBest ((k0, c0) :: rest) bk bc = pickBest rest k0 c0 := by
        rw [pickBest, if_pos h]
      have hbc : bc < c := by
        cases l1 with
        | nil =>
          rcases List.cons.injEq .. ▸ heq with ⟨hh, _⟩
          have : c0 = c := (Prod.mk.injEq .. ▸ hh).2
          omega
        | cons q l1' =>
          rcases List.cons.injEq .. ▸ heq with ⟨hh, _⟩
          have hq : q.2 < c := h1 q (hh ▸ List.mem_cons_self q l1')
          have : q = (k0, c0) := hh.symm
          rw [this] at hq
          omega
      refine ⟨c, (bk, bc) :: l1, l2, ?_, ?_, h2⟩
      · rw [hr, List.cons_append, ← heq]
      · intro q hq
        rcases List.mem_cons.mp hq with rfl | hq'
        · exact hbc
        · exact h1 q hq'
    · rcases ih bk bc with ⟨c, l1, l2, heq, h1, h2⟩
      have hr : pickBest ((k0, c0) :: rest) bk bc = pickBest rest bk bc := by
        rw [pickBest, if_neg h]
      cases l1 with
      | nil =>
        rcases List.cons.injEq .. ▸ heq with ⟨hh, hrest⟩
        have hbk : pickBest rest bk bc = bk := (Prod.mk.injEq .. ▸ hh).1.symm
        have hbc : c = bc := (Prod.mk.injEq .. ▸ hh).2.symm
        refine ⟨c, [], (k0, c0) :: l2, ?_, by simp, ?_⟩
        · rw [hr, hbk, List.nil_append, hbc, hrest]
        · intro q hq
          rcases List.mem_cons.mp hq with rfl | hq'
          · omega
          · exact h2 q hq'
      | cons q l1' =>
        rcases List.cons.injEq .. ▸ heq with ⟨hh, hrest⟩
        refine ⟨c, (bk, bc) :: (k0, c0) :: l1', l2, ?_, ?_, h2⟩
        · simp only [List.cons_append]
          rw [hr]
          exact congrArg (fun t => (bk, bc) :: (k0, c0) :: t) hrest
        · intro p hp
          have hbc : bc < c := by
            have := h1 q (List.mem_cons_self q l1')
            rw [← hh] at this
            exact this
          rcases List.mem_cons.mp hp with rfl | hp'
          · exact hbc
          · rcases List.mem_cons.mp hp' with rfl | hp''
            · omega
            · exact h1 p (hh ▸ List.mem_cons_of_mem q hp'')

/-- The modal pick of `fetchForecast` is sound: the picked symbol
occurs in the day's sample list, its frequency is maximal, and among
equally frequent symbols it is the chronologically first one. -/
theorem pickMost_spec (l : List JsVal) (v : JsVal)
    (h : pickMost (symbolCounts l) = some v) :
    v ∈ l ∧ (∀ w ∈ l, l.count w ≤ l.count v) ∧
    (∀ w ∈ l, l.count w = l.count v → l.indexOf v ≤ l.indexOf w) := by
  have hkeys : (symbolCounts l).map Prod.fst = newKeys l [] := by
    have := keys_symbolCountsFrom l []
    simpa [symbolCounts] using this
  have hpw : List.Pairwise (fun a b => l.indexOf a < l.indexOf b)
      ((symbolCounts l).map Prod.fst) := by
    rw [hkeys]
    exact newKeys_pairwise l []
  have hnd : ((symbolCounts l).map Prod.fst).Nodup :=
    hpw.imp (fun hab => fun heq => absurd (heq ▸ hab) (lt_irrefl _))
  have hlk : ∀ w : JsVal, w ∈ l → countLookup (symbolCounts l) w = some (l.count w) := by
    intro w hw
    have := countLookup_symbolCountsFrom l [] w
    simpa [symbolCounts, countLookup, hw] using this
  rcases hsc : symbolCounts l with _ | ⟨⟨k0, c0⟩, restc⟩
  · rw [hsc] at h
    simp [pickMost] at h
  · have hv : v = pickBest restc k0 c0 := by
      rw [hsc] at h
      simp only [pickMost, Option.some.injEq] at h
      exact h.symm
    rcases pickBest_split restc k0 c0 with ⟨c, l1, l2, heq, h1, h2⟩
    rw [← hv] at heq
    have hsplit : symbolCounts l = l1 ++ (v, c) :: l2 := by rw [hsc, heq]
    have hvc_mem : (v, c) ∈ symbolCounts l := by
      rw [hsplit]
      exact List.mem_append_right l1 (List.mem_cons_self _ _)
    have hvlk : countLookup (symbolCounts l) v = some c :=
      mem_countLookup _ _ _ hnd hvc_mem
    have hvl : v ∈ l ∧ c = l.count v := by
      have := countLookup_symbolCountsFrom l [] v
      rw [symbolCounts] at hvlk
      rw [hvlk] at this
      simp only [countLookup] at this
      by_cases hvin : v ∈ l
      · rw [if_pos hvin] at this
        exact ⟨hvin, (Option.some.injEq .. ▸ this)⟩
      · rw [if_neg hvin] at this
        cases this
    rcases hvl with ⟨hvin, hc⟩
    refine ⟨hvin, ?_, ?_⟩
    · intro w hw
      have hwmem : (w, l.count w) ∈ symbolCounts l :=
        countLookup_mem _ _ _ (hlk w hw)
      rw [hsplit] at hwmem
      rcases List.mem_append.mp hwmem with hin1 | hin2
      · have := h1 _ hin1
        omega
      · rcases List.mem_cons.mp hin2 with heqv | hin2'
        · have : l.count w = c := (Prod.mk.injEq .. ▸ heqv).2
          omega
        · have := h2 _ hin2'
          omega
    · intro w hw hcnt
      by_cases hwv : w = v
      · rw [hwv]
      · have hwmem : (w, l.count w) ∈ symbolCounts l :=
          countLookup_mem _ _ _ (hlk w hw)
        rw [hsplit] at hwmem
        rcases List.mem_append.mp hwmem with hin1 | hin2
        · have := h1 _ hin1
          omega
        · rcases List.mem_cons.mp hin2 with heqv | hin2'
          · exact absurd (Prod.mk.injEq .. ▸ heqv).1 hwv
          · have hwkey : w ∈ l2.map Prod.fst := List.mem_map.mpr ⟨_, hin2', rfl⟩
            have hpw' : List.Pairwise (fun a b => l.indexOf a < l.indexOf b)
                (l1.map Prod.fst ++ v :: l2.map Prod.fst) := by
              have : (l1 ++ (v, c) :: l2).map Prod.fst =
                  l1.map Prod.fst ++ v :: l2.map Prod.fst := by simp
              rw [hsplit, this] at hpw
              exact hpw
            have hvw := (List.pairwise_cons.mp
              (List.pairwise_append.mp hpw').2.1).1 w hwkey
            omega

/-- C8 counterexample: a day whose only weather-symbol sample is `0`.
The `|| 1` default replaces the modal value `0` (falsy) by `1`, so
the assigned symbol `1` has frequency 0 in the day while the value `0`
has frequency 1 — the assigned category is not a maximal-frequency
value. -/
theorem C8_counterexample :
    (fetchForecastAgg [("2025-01-01T00:00:00Z")] [JsVal.num 5] [JsVal.num 2]
        [JsVal.num 0]).map (fun d => d.weatherSymbol) = [1] ∧
    ([JsVal.num 0] : List JsVal).count (JsVal.num 1) = 0 ∧
    ([JsVal.num 0] : List JsVal).count (JsVal.num 0) = 1 := by
  exact ⟨by decide, by decide, by decide⟩

/-- C8 (amended): whenever the first maximal-frequency symbol of a
day's sample list is a non-zero number `q`, the aggregation assigns
exactly `q`: a value of maximal frequency, and among equally frequent
values the one whose first occurrence is chronologically earliest
(JS's stable descending sort keeps first-occurrence order on ties).
When the winning value is `0` (or `NaN`, or no samples exist) the
`|| 1` default substitutes `1` instead.  Every emitted day's symbol is
this modal computation applied to its bucket. -/
theorem C8_amended :
    (∀ (l : List JsVal) (q : ℚ),
      pickMost (symbolCounts l) = some (JsVal.num q) → q ≠ 0 →
      modalSymbol l = q ∧ JsVal.num q ∈ l ∧
      (∀ w ∈ l, l.count w ≤ l.count (JsVal.num q)) ∧
      (∀ w ∈ l, l.count w = l.count (JsVal.num q) →
        l.indexOf (JsVal.num q) ≤ l.indexOf w)) ∧
    (∀ (times : List String) (temps winds symbols : List JsVal),
      ∀ d ∈ fetchForecastAgg times temps winds symbols,
      ∃ k b, (k, b) ∈ (buildDayMap times temps winds symbols).take 5 ∧
        d.weatherSymbol = modalSymbol b.symbols) := by
  constructor
  · intro l q hpick hq0
    have hspec := pickMost_spec l (JsVal.num q) hpick
    refine ⟨?_, hspec.1, hspec.2.1, hspec.2.2⟩
    rw [modalSymbol, hpick]
    simp [hq0]
  · intro times temps winds symbols d hd
    rcases List.mem_filterMap.mp hd with ⟨⟨k, b⟩, htake, heq⟩
    by_cases hb : b.temps.length > 0
    · rw [aggregateDay, if_pos hb] at heq
      cases heq
      exact ⟨k, b, htake, rfl⟩
    · rw [aggregateDay, if_neg hb] at heq
      cases heq

/-- C8 witness: the amended statement evaluated on the sample list
`[2, 3, 3]` — the winner is `3`, of maximal frequency. -/
theorem C8_amended_witness :
    pickMost (symbolCounts [JsVal.num 2, JsVal.num 3, JsVal.num 3]) =
      some (JsVal.num 3) ∧
    (3 : ℚ) ≠ 0 ∧
    modalSymbol [JsVal.num 2, JsVal.num 3, JsVal.num 3] = 3 :=
  ⟨by decide, by decide,
    (C8_amended.1 [JsVal.num 2, JsVal.num 3, JsVal.num 3] 3 (by decide) (by decide)).1⟩
